import Mathlib

/-!
Verification development for the tool-calling core of a YouTube-channel chat
application (React + Gemini).  The definitions below are a shallow embedding of

  * `src/services/jsonTools.js` — the JSON tool declarations, the math helpers
    (`numericValues`, `median`, `fmt`) and the tool executor `executeJsonTool`
    (statistics, chart building, video resolution, image pass-through);
  * `src/services/gemini.js` — the conversation-history adapter shared by
    `streamChat` / `chatWithCsvTools` / `chatWithJsonTools`, and the bounded
    function-calling loop of `chatWithCsvTools` / `chatWithJsonTools`.

Modelling conventions:

  * JavaScript numbers are modelled as rationals (`ℚ`); `NaN` is represented by
    `Option ℚ` (`none` = NaN) at coercion points.
  * JavaScript scalar values occurring in the dataset records are modelled by
    the inductive `Value` (number, string, null, undefined).
  * External primitives with no algorithmic content in the repository are
    parameters of an `Env` record: `Math.sqrt`, `new Date(x).getTime()` (used
    only as a sort key), and `toLocaleDateString` (an opaque formatter).
  * `Array.prototype.sort` with a numeric comparator `k(a) - k(b)` is modelled
    by the stable insertion sort `sortByLe` with `le a b = (k a ≤ k b)`;
    ECMAScript 2019 requires `sort` to be stable, and for a total preorder the
    stable sorted permutation is unique.
  * `parseFloat` / `Number` string coercion is modelled for canonical decimal
    numerals (optional sign, digits, optional fraction); non-numeral strings
    are mapped to NaN (`none`).
-/

/-- JavaScript scalar value as it occurs in the dataset records and tool
results: a number, a string, `null`, or `undefined`. -/
inductive Value where
  | num (q : ℚ)
  | str (s : String)
  | null
  | undef
deriving DecidableEq

/-- Dataset record: a JavaScript object, modelled as an association list from
field name to value (first binding wins on lookup, as object keys are
unique). -/
def JRecord := List (String × Value)

instance : DecidableEq JRecord := inferInstanceAs (DecidableEq (List (String × Value)))

/-- Field access `v[field]`: a missing key reads as `undefined`. -/
def getField (v : JRecord) (key : String) : Value :=
  match List.lookup key v with
  | some x => x
  | none => Value.undef

/-- JavaScript truthiness of a `Value` (`0`, `""`, `null`, `undefined` are
falsy; `NaN` does not arise for `Value.num` since numbers are rationals). -/
def truthy : Value → Bool
  | Value.num q => decide (q ≠ 0)
  | Value.str s => decide (s ≠ "")
  | Value.null => false
  | Value.undef => false

/-- JavaScript `a || b` on dataset values. -/
def jsOr (a b : Value) : Value := if truthy a then a else b

/-- Digit run to a natural number (the argument is a list of decimal digits). -/
def digitsToNat (l : List Char) : Nat :=
  l.foldl (fun a c => a * 10 + (c.toNat - 48)) 0

/-- Canonical decimal numeral parser, modelling the JavaScript `parseFloat` /
`Number` string coercion on strings of the shape `[-]digits[.digits]`;
`none` models `NaN`.  (The JavaScript builtins accept further shapes —
exponents, trailing garbage for `parseFloat` — that never arise from the
dataset produced by the channel downloader, whose numeric fields are numbers.) -/
def parseDec (s : String) : Option ℚ :=
  let l := s.toList
  let neg := match l with
    | '-' :: _ => true
    | _ => false
  let l₁ := match l with
    | '-' :: rest => rest
    | _ => l
  let intPart := l₁.takeWhile Char.isDigit
  let rest := l₁.drop intPart.length
  if intPart.isEmpty then none
  else
    let v? : Option ℚ :=
      match rest with
      | [] => some (digitsToNat intPart)
      | '.' :: frac =>
        if frac.all Char.isDigit then
          some ((digitsToNat intPart : ℚ) + (digitsToNat frac : ℚ) / (10 ^ frac.length))
        else none
      | _ => none
    v?.map (fun v => if neg then -v else v)

/-- JavaScript `parseFloat` applied to a dataset value (`none` = NaN):
numbers pass through, strings go through the numeral parser, `null` and
`undefined` coerce to NaN. -/
def jsParseFloat : Value → Option ℚ
  | Value.num q => some q
  | Value.str s => parseDec s
  | Value.null => none
  | Value.undef => none

/-- Numeric sort key for `(v.field || 0)` as used in the resolver's comparators
`(b.view_count || 0) - (a.view_count || 0)` etc.: falsy values give `0`, a
number gives itself, a truthy numeral string its value.  (A truthy non-numeral
string is NaN in JavaScript, whose comparator behaviour is unspecified; the
model maps it to `0`.) -/
def numOrZero : Value → ℚ
  | Value.num q => q
  | Value.str s => if s = "" then 0 else (parseDec s).getD 0
  | Value.null => 0
  | Value.undef => 0

-- ── Plain character-list string helpers (substring search, regex tests) ──────

/-- Test whether `pat` is an initial segment of `l`. -/
def startsWithCL (pat : List Char) (l : List Char) : Bool :=
  match pat, l with
  | [], _ => true
  | _ :: _, [] => false
  | a :: as, b :: bs => a == b && startsWithCL as bs

/-- Substring occurrence test on character lists (JavaScript
`String.prototype.includes`). -/
def containsCL (pat : List Char) : List Char → Bool
  | [] => startsWithCL pat []
  | c :: cs => startsWithCL pat (c :: cs) || containsCL pat cs

/-- JavaScript `s.includes(pat)`. -/
def strContains (s pat : String) : Bool := containsCL pat.toList s.toList

/-- Test at one position for the regex `p1\s*p2` (e.g. `most\s*view`): `p1`,
then any run of whitespace, then `p2`. -/
def beginsWs2 (p1 p2 : List Char) (l : List Char) : Bool :=
  startsWithCL p1 l &&
    startsWithCL p2 ((l.drop p1.length).dropWhile Char.isWhitespace)

/-- Search test for the regex `p1\s*p2` anywhere in the string (models
`/p1\s*p2/.test(q)` for literal `p1`, `p2`). -/
def containsWs2 (p1 p2 : List Char) : List Char → Bool
  | [] => beginsWs2 p1 p2 []
  | c :: cs => beginsWs2 p1 p2 (c :: cs) || containsWs2 p1 p2 cs

/-- Lowercasing, JavaScript `toLowerCase` (ASCII; the core library's
`String.toLower` is avoided because its byte-position recursion does not
reduce inside the kernel). -/
def jsToLower (s : String) : String := ⟨s.toList.map Char.toLower⟩

/-- Whitespace trimming, JavaScript `trim` (same remark as `jsToLower`). -/
def jsTrim (s : String) : String :=
  ⟨((s.toList.dropWhile Char.isWhitespace).reverse.dropWhile Char.isWhitespace).reverse⟩

/-- Whitespace-run splitter: the words of a character list, in order. -/
def wordsAux : List Char → List Char → List String
  | [], acc => if acc.isEmpty then [] else [⟨acc.reverse⟩]
  | c :: cs, acc =>
    if c.isWhitespace then
      if acc.isEmpty then wordsAux cs [] else ⟨acc.reverse⟩ :: wordsAux cs []
    else wordsAux cs (c :: acc)

/-- Whitespace split modelling `query.split(/\s+/)` on an already-trimmed
string: the empty string yields `[""]` (as in JavaScript), a non-empty trimmed
string yields its whitespace-separated words. -/
def jsSplitWs (s : String) : List String :=
  if s = "" then [""] else wordsAux s.toList []

-- ── Stable sort (Array.prototype.sort with a total numeric comparator) ───────

/-- Insert `x` in front of the first element `y` with `le x y`; elements
already placed stay in order, so the resulting sort is stable: an element
inserted earlier in the fold (i.e. occurring earlier in the original array)
precedes later elements with an equal key. -/
def insertLe (le : α → α → Bool) (x : α) : List α → List α
  | [] => [x]
  | y :: ys => if le x y then x :: y :: ys else y :: insertLe le x ys

/-- Stable insertion sort; models `arr.sort((a, b) => k(a) - k(b))` (ascending
by key `k`, stable) via `le a b = (k a ≤ k b)`, and the descending comparators
via `le a b = (k b ≤ k a)`. -/
def sortByLe (le : α → α → Bool) : List α → List α
  | [] => []
  | x :: xs => insertLe le x (sortByLe le xs)

-- ── Math helpers (jsonTools.js, lines 1157–1165) ─────────────────────────────

/-- Source `numericValues`: `videos.map(v => parseFloat(v[field])).filter(n => !isNaN(n))`. -/
def numericValues (videos : List JRecord) (field : String) : List ℚ :=
  (videos.map (fun v => jsParseFloat (getField v field))).filterMap id

/-- Source `median` on an ascending-sorted list.  The even branch reads
`sorted[len/2 - 1]`; with `len = 0` that index is out of range in JavaScript
(NaN), but the executor only calls `median` on a non-empty list.  Out-of-range
reads are modelled by default `0`. -/
def medianQ (sorted : List ℚ) : ℚ :=
  if sorted.length % 2 = 0 then
    ((sorted.getD (sorted.length / 2 - 1) 0) + (sorted.getD (sorted.length / 2) 0)) / 2
  else sorted.getD (sorted.length / 2) 0

/-- Source `fmt`: `+n.toFixed(4)` — round to the nearest multiple of `10⁻⁴`,
ties toward `+∞` (ECMAScript `toFixed` picks the larger candidate on a tie). -/
def fmt (q : ℚ) : ℚ := ((round (q * 10000) : ℤ) : ℚ) / 10000

/-- Minimum of a value list (`Math.min(...vals)`; only used on non-empty
lists — `Math.min()` of an empty spread is `Infinity`, unreachable here). -/
def listMin : List ℚ → ℚ
  | [] => 0
  | x :: xs => xs.foldl min x

/-- Maximum of a value list (`Math.max(...vals)`; same remark). -/
def listMax : List ℚ → ℚ
  | [] => 0
  | x :: xs => xs.foldl max x

-- ── External primitives (Math.sqrt, Date) ────────────────────────────────────

/-- Parameters for the JavaScript primitives the executor calls but the
repository does not define: `Math.sqrt`, `new Date(x).getTime()` as a sort
key, and the short `toLocaleDateString` formatter.  Theorems assume only the
properties of these primitives they need. -/
structure Env where
  sqrt : ℚ → ℚ
  dateMs : Value → ℚ
  shortDate : Value → String

/-- Trivial environment used to instantiate theorems on concrete inputs. -/
def env₀ : Env where
  sqrt := id
  dateMs := fun v => match v with
    | Value.num q => q
    | _ => 0
  shortDate := fun _ => ""

-- ── Tool arguments and results ───────────────────────────────────────────────

/-- Model-supplied tool arguments (the union of the parameters declared in
`JSON_TOOL_DECLARATIONS`); absent arguments are `none` / `undef`. -/
structure Args where
  field : String
  metric : String
  title : Option String
  query : Option String
  prompt : Value
deriving DecidableEq

/-- Argument record with everything absent. -/
def noArgs : Args := ⟨"", "", none, none, Value.undef⟩

/-- Chart point: `{ date, fullDate, value, title }` as built by
`plot_metric_vs_time`. -/
structure Point where
  date : String
  fullDate : Value
  value : ℚ
  title : Value
deriving DecidableEq

/-- Tagged tool result.  The source uses ad-hoc marker fields on plain
objects: `{ error }`, the untagged statistics record, `{ _chartType, … }`,
`{ _cardType: 'video', … }`, `{ _action: 'generateImage', … }`. -/
inductive ToolResult where
  | error (msg : String)
  | stats (field : String) (count : Nat) (mean median std mn mx : ℚ)
  | chart (metric title : String) (data : List Point)
  | card (title video_url thumbnail_url view_count like_count duration : Value)
  | image (prompt : Value)
deriving DecidableEq

/-- Truthiness of `toolResult?._chartType` (the loop's chart accumulator test). -/
def ToolResult.isChart : ToolResult → Bool
  | ToolResult.chart _ _ _ => true
  | _ => false

/-- The loop's `toolResult?._cardType === 'video'` test. -/
def ToolResult.isCard : ToolResult → Bool
  | ToolResult.card _ _ _ _ _ _ => true
  | _ => false

/-- Error-tag test (`{ error: … }` results). -/
def ToolResult.isError : ToolResult → Bool
  | ToolResult.error _ => true
  | _ => false

/-- Projection of the returned `mean` of a statistics result (`0` otherwise). -/
def ToolResult.meanOf : ToolResult → ℚ
  | ToolResult.stats _ _ m _ _ _ _ => m
  | _ => 0

/-- Projection of the returned `std` of a statistics result (`0` otherwise). -/
def ToolResult.stdOf : ToolResult → ℚ
  | ToolResult.stats _ _ _ _ s _ _ => s
  | _ => 0

/-- Projection of the returned `min` of a statistics result (`0` otherwise). -/
def ToolResult.minOf : ToolResult → ℚ
  | ToolResult.stats _ _ _ _ _ mn _ => mn
  | _ => 0

/-- Projection of the returned `max` of a statistics result (`0` otherwise). -/
def ToolResult.maxOf : ToolResult → ℚ
  | ToolResult.stats _ _ _ _ _ _ mx => mx
  | _ => 0

-- ── Statistics executor (case 'compute_stats_json') ──────────────────────────

/-- Case `'compute_stats_json'` of `executeJsonTool`: coerce the field of every
record to a number, drop NaNs; with no values left return the error result
naming the first record's keys (`Object.keys(videos[0] || {}).join(', ')`);
otherwise return count, mean, median, population std, min, max, the fractional
ones rounded to 4 decimal places. -/
def computeStats (env : Env) (field : String) (videos : List JRecord) : ToolResult :=
  let vals := numericValues videos field
  if vals.isEmpty then
    ToolResult.error ("No numeric values found for field \"" ++ field ++
      "\". Available fields: " ++ String.intercalate ", " ((videos.headD []).map Prod.fst))
  else
    let mean := vals.sum / (vals.length : ℚ)
    let sorted := sortByLe (fun a b => decide (a ≤ b)) vals
    let variance := (vals.map (fun b => (b - mean) ^ 2)).sum / (vals.length : ℚ)
    ToolResult.stats field vals.length (fmt mean) (fmt (medianQ sorted))
      (fmt (env.sqrt variance)) (listMin vals) (listMax vals)

-- ── Chart executor (case 'plot_metric_vs_time') ──────────────────────────────

/-- Presence test `x !== undefined && x !== null`. -/
def present : Value → Bool
  | Value.undef => false
  | Value.null => false
  | _ => true

/-- Record filter of the chart builder:
`v.release_date && v[metric] !== undefined && v[metric] !== null`. -/
def chartPred (metric : String) (v : JRecord) : Bool :=
  truthy (getField v "release_date") && present (getField v metric)

/-- Y-value coercion of the chart builder:
`typeof v[metric] === 'number' ? v[metric] : parseFloat(v[metric]) || 0`. -/
def chartValue : Value → ℚ
  | Value.num q => q
  | v =>
    match jsParseFloat v with
    | some q => if q = 0 then 0 else q
    | none => 0

/-- One chart point for a record that passed the filter. -/
def mkPoint (env : Env) (metric : String) (v : JRecord) : Point :=
  ⟨env.shortDate (getField v "release_date"), getField v "release_date",
    chartValue (getField v metric), jsOr (getField v "title") (Value.str "")⟩

/-- Chart title: `args.title || metric + ' over time'`. -/
def chartTitle (args : Args) : String :=
  match args.title with
  | some t => if t = "" then args.metric ++ " over time" else t
  | none => args.metric ++ " over time"

/-- Case `'plot_metric_vs_time'` of `executeJsonTool`: filter to records with a
truthy `release_date` and a non-undefined, non-null metric, sort ascending by
`new Date(release_date)`, and map each record to a point; error when nothing
survives the filter. -/
def plotMetricVsTime (env : Env) (args : Args) (videos : List JRecord) : ToolResult :=
  let metric := args.metric
  let sorted := sortByLe
    (fun a b => decide (env.dateMs (getField a "release_date") ≤ env.dateMs (getField b "release_date")))
    (videos.filter (chartPred metric))
  if sorted.isEmpty then
    ToolResult.error ("No data found for metric \"" ++ metric ++ "\" with release dates.")
  else
    ToolResult.chart metric (chartTitle args) (sorted.map (mkPoint env metric))

-- ── Video resolver (case 'play_video') ───────────────────────────────────────

/-- The ten spelled-out ordinals of the source's `ordinals` object, in source
order, with their zero-based indices. -/
def ordinalPairs : List (String × Nat) :=
  [("first", 0), ("second", 1), ("third", 2), ("fourth", 3), ("fifth", 4),
   ("sixth", 5), ("seventh", 6), ("eighth", 7), ("ninth", 8), ("tenth", 9)]

/-- Lookup `ordinals[query]` (the `!== undefined` guard of the source). -/
def spelledOrdinalIndex (q : String) : Option Nat := List.lookup q ordinalPairs

/-- Match of the regex `/(\d+)(?:st|nd|rd|th)/` at the head of the character
list: a non-empty digit run followed immediately by one of the four suffixes.
(Backtracking inside the greedy `\d+` can never succeed, because a shorter
capture would be followed by a digit, which starts none of the suffixes, so
only the full digit run needs to be checked.) -/
def ordSuffixAt (l : List Char) : Option Nat :=
  let ds := l.takeWhile Char.isDigit
  if ds.isEmpty then none
  else
    let rest := l.drop ds.length
    if startsWithCL ['s', 't'] rest || startsWithCL ['n', 'd'] rest ||
        startsWithCL ['r', 'd'] rest || startsWithCL ['t', 'h'] rest then
      some (digitsToNat ds)
    else none

/-- Leftmost match of `/(\d+)(?:st|nd|rd|th)/`, with the captured digits
parsed by `parseInt(·, 10)`. -/
def ordSuffixSearch : List Char → Option Nat
  | [] => none
  | c :: cs =>
    match ordSuffixAt (c :: cs) with
    | some n => some n
    | none => ordSuffixSearch cs

/-- Numeral-suffix ordinal stage: `videos[parseInt(ordMatch[1], 10) - 1]`.
`parseInt` of the capture is a natural number `n`; index `n - 1` is `-1` when
`n = 0`, an out-of-range (undefined) read. -/
def numeralStage (q : String) (videos : List JRecord) : Option JRecord :=
  match ordSuffixSearch q.toList with
  | some n => if n = 0 then none else videos.get? (n - 1)
  | none => none

/-- Combined ordinal stage of the resolver: when the whole query is a
spelled-out ordinal the numeral-suffix pattern is never consulted (the
source's `if … else if …`), even if the resulting index is out of range. -/
def ordinalStage (q : String) (videos : List JRecord) : Option JRecord :=
  match spelledOrdinalIndex q with
  | some i => videos.get? i
  | none => numeralStage q videos

/-- View-count sort key `(v.view_count || 0)`. -/
def viewKey (v : JRecord) : ℚ := numOrZero (getField v "view_count")

/-- Like-count sort key `(v.like_count || 0)`. -/
def likeKey (v : JRecord) : ℚ := numOrZero (getField v "like_count")

/-- Duration sort key `(v.duration || 0)`. -/
def durKey (v : JRecord) : ℚ := numOrZero (getField v "duration")

/-- Release-date sort key `new Date(v.release_date || 0)`. -/
def dateKey (env : Env) (v : JRecord) : ℚ :=
  env.dateMs (jsOr (getField v "release_date") (Value.num 0))

/-- Criteria stage of the resolver: the chain of case-insensitive regex tests
(`/most\s*view/i` …) on the already-lowercased query; each match sorts a copy
of the dataset by the corresponding key and takes the head. -/
def criteriaFind (env : Env) (q : String) (videos : List JRecord) : Option JRecord :=
  let ql := q.toList
  if containsWs2 ['m', 'o', 's', 't'] ['v', 'i', 'e', 'w'] ql then
    (sortByLe (fun a b => decide (viewKey b ≤ viewKey a)) videos).head?
  else if containsWs2 ['l', 'e', 'a', 's', 't'] ['v', 'i', 'e', 'w'] ql then
    (sortByLe (fun a b => decide (viewKey a ≤ viewKey b)) videos).head?
  else if containsWs2 ['m', 'o', 's', 't'] ['l', 'i', 'k'] ql then
    (sortByLe (fun a b => decide (likeKey b ≤ likeKey a)) videos).head?
  else if strContains q "latest" || strContains q "newest" || strContains q "recent" then
    (sortByLe (fun a b => decide (dateKey env b ≤ dateKey env a)) videos).head?
  else if strContains q "oldest" || strContains q "earliest" then
    (sortByLe (fun a b => decide (dateKey env a ≤ dateKey env b)) videos).head?
  else if strContains q "shortest" then
    (sortByLe (fun a b => decide (durKey a ≤ durKey b)) videos).head?
  else if strContains q "longest" then
    (sortByLe (fun a b => decide (durKey b ≤ durKey a)) videos).head?
  else none

/-- Lowercased title of a record, `(v.title || '').toLowerCase()`.  (A truthy
non-string title would be a `TypeError` in JavaScript; the dataset shape fixes
`title` to a string, and the model reads non-string titles as `''`.) -/
def titleLower (v : JRecord) : String :=
  jsToLower
    (match getField v "title" with
     | Value.str s => s
     | _ => "")

/-- Title-match stage: first the record whose title contains every
whitespace-separated term of the query, then — as fallback — the first whose
title contains any term longer than 2 characters. -/
def titleStage (q : String) (videos : List JRecord) : Option JRecord :=
  let terms := jsSplitWs q
  match videos.find? (fun v => terms.all (fun t => strContains (titleLower v) t)) with
  | some f => some f
  | none =>
    videos.find? (fun v => terms.any (fun t => decide (t.length > 2) && strContains (titleLower v) t))

/-- String a template literal renders for `args.query` (an absent argument
prints as `undefined`). -/
def templateStr (o : Option String) : String :=
  match o with
  | some s => s
  | none => "undefined"

/-- Card result built from the resolved record, with the thumbnail fallback
URL derived from `video_id` (template-literal string coercion of the id is
modelled by `toString` for numbers). -/
def cardOf (found : JRecord) : ToolResult :=
  ToolResult.card (getField found "title") (getField found "video_url")
    (jsOr (getField found "thumbnail_url")
      (Value.str ("https://i.ytimg.com/vi/" ++
        (match getField found "video_id" with
         | Value.str s => s
         | Value.num q => toString q
         | Value.null => "null"
         | Value.undef => "undefined") ++ "/hqdefault.jpg")))
    (getField found "view_count") (getField found "like_count") (getField found "duration")

/-- Case `'play_video'` of `executeJsonTool`, parameterised by its first
resolution stage (the ordinal stage), so that the theorems can compare the
full resolver against the resolver with the spelled-out-ordinal branch
removed.  The strategies chain exactly as in the source: ordinal, then (only
when nothing was found) criteria, then exact-terms title match, then the fuzzy
any-term fallback, and finally the error naming the original query. -/
def playVideoWith (stage : String → List JRecord → Option JRecord) (env : Env)
    (query₀ : Option String) (videos : List JRecord) : ToolResult :=
  let query := jsTrim (jsToLower (query₀.getD ""))
  if videos.isEmpty then ToolResult.error "No videos loaded."
  else
    let found₀ := stage query videos
    let found₁ := match found₀ with
      | some f => some f
      | none => criteriaFind env query videos
    let found₂ := match found₁ with
      | some f => some f
      | none => titleStage query videos
    match found₂ with
    | some f => cardOf f
    | none => ToolResult.error ("No video found matching \"" ++ templateStr query₀ ++ "\".")

/-- Full `play_video` resolver. -/
def playVideo (env : Env) (query₀ : Option String) (videos : List JRecord) : ToolResult :=
  playVideoWith ordinalStage env query₀ videos

/-- The `play_video` resolver with the spelled-out-ordinal branch skipped
(the numeral-suffix pattern is still applied). -/
def playVideoSkipSpelled (env : Env) (query₀ : Option String) (videos : List JRecord) : ToolResult :=
  playVideoWith numeralStage env query₀ videos

-- ── The executor, in state-passing form ──────────────────────────────────────

/-- Source `executeJsonTool(toolName, args, videos)`, in state-passing form:
the second component is the dataset after the call.  Every branch of the
source reads `videos` but never writes to it — the sorts in the statistics,
chart, and criteria branches all operate on a fresh array (`[...videos]`, or
the new array produced by `filter`/`map`) — so each branch returns the input
dataset unchanged. -/
def executeJsonToolSt (env : Env) (toolName : String) (args : Args)
    (videos : List JRecord) : ToolResult × List JRecord :=
  if toolName = "compute_stats_json" then
    (computeStats env args.field videos, videos)
  else if toolName = "plot_metric_vs_time" then
    (plotMetricVsTime env args videos, videos)
  else if toolName = "play_video" then
    (playVideo env args.query videos, videos)
  else if toolName = "generateImage" then
    (ToolResult.image args.prompt, videos)
  else
    (ToolResult.error ("Unknown tool: " ++ toolName), videos)

/-- Result component of the executor. -/
def executeJsonTool (env : Env) (toolName : String) (args : Args)
    (videos : List JRecord) : ToolResult :=
  (executeJsonToolSt env toolName args videos).1

-- ── Conversation adapter (gemini.js, history construction) ───────────────────

/-- Incoming message `{ role, content }`; `content` is `Option` to model a
possibly-absent field (`m.content || ''`). -/
structure Msg where
  role : String
  content : Option String
deriving DecidableEq

/-- Provider-facing turn `{ role, parts: [{ text }] }`, flattened to its single
text part. -/
structure Turn where
  role : String
  text : String
deriving DecidableEq

/-- Per-message mapping of `baseHistory`:
`{ role: m.role === 'user' ? 'user' : 'model', parts: [{ text: m.content || '' }] }`. -/
def mapHistoryTurn (m : Msg) : Turn :=
  ⟨if m.role = "user" then "user" else "model", m.content.getD ""⟩

/-- Text of the synthetic instruction turn. -/
def sysTurnText (systemInstruction : String) : String :=
  "Follow these instructions in every response:\n\n" ++ systemInstruction

/-- Text of the synthetic model acknowledgment turn. -/
def ackText : String := "Got it! I\x27ll follow those instructions."

/-- History construction shared by `streamChat`, `chatWithCsvTools` and
`chatWithJsonTools`: `systemInstruction ? [sys, ack, ...baseHistory] :
baseHistory` (JavaScript string truthiness: the empty instruction adds no
synthetic turns). -/
def buildChatHistory (systemInstruction : String) (history : List Msg) : List Turn :=
  let baseHistory := history.map mapHistoryTurn
  if systemInstruction ≠ "" then
    ⟨"user", sysTurnText systemInstruction⟩ :: ⟨"model", ackText⟩ :: baseHistory
  else baseHistory

-- ── Tool-calling orchestrator loop ───────────────────────────────────────────

/-- Response part as inspected by the loop: a text part or a function-call
part. -/
inductive GPart where
  | text (s : String)
  | funcCall (name : String) (args : Args)
deriving DecidableEq

/-- Model response: its content parts and the text `response.text()` returns. -/
structure GResponse where
  parts : List GPart
  finalText : String
deriving DecidableEq

/-- The loop's `parts.find((p) => p.functionCall)`. -/
def findFuncCall (ps : List GPart) : Option (String × Args) :=
  ps.findSome? (fun p =>
    match p with
    | GPart.funcCall n a => some (n, a)
    | _ => none)

/-- One entry of the `toolCalls` audit log: `{ name, args, result }`. -/
structure ToolCall where
  name : String
  args : Args
  result : ToolResult
deriving DecidableEq

/-- Return value of `chatWithJsonTools`: the final response (whose `.text()`
is returned), the chart payloads, the video cards, and the call log.
(`chatWithCsvTools` is identical minus the `videoCards` accumulator.) -/
structure LoopOut where
  response : GResponse
  charts : List ToolResult
  videoCards : List ToolResult
  toolCalls : List ToolCall
deriving DecidableEq

/-- The function-calling loop of `chatWithJsonTools` (and, minus the video-card
accumulator, `chatWithCsvTools`): `for (let round = 0; round < 5; round++)`.
The remote model is abstracted as a deterministic `respond` function from the
function responses sent so far (the conversation history and user message are
fixed for the turn) to the next response.  Each iteration looks for a
function-call part; with none present it exits at once, otherwise it executes
the call, logs it, accumulates chart/card payloads, sends the result back and
continues with the next response. -/
def toolLoopGo (respond : List (String × ToolResult) → GResponse)
    (exec : String → Args → ToolResult) :
    Nat → GResponse → List (String × ToolResult) →
    List ToolResult → List ToolResult → List ToolCall → LoopOut
  | 0, resp, _, charts, cards, calls => ⟨resp, charts, cards, calls⟩
  | fuel + 1, resp, sent, charts, cards, calls =>
    match findFuncCall resp.parts with
    | none => ⟨resp, charts, cards, calls⟩
    | some (name, args) =>
      let r := exec name args
      let sent' := sent ++ [(name, r)]
      toolLoopGo respond exec fuel (respond sent') sent'
        (if r.isChart then charts ++ [r] else charts)
        (if r.isCard then cards ++ [r] else cards)
        (calls ++ [⟨name, args, r⟩])

/-- `chatWithJsonTools`, from the first response (to the user message) on. -/
def chatWithJsonTools (respond : List (String × ToolResult) → GResponse)
    (exec : String → Args → ToolResult) : LoopOut :=
  toolLoopGo respond exec 5 (respond []) [] [] [] []

/-- The same loop with exception semantics for the executor
(`Except.error` = a raised exception): the source invokes
`executeFn(name, args)` with no surrounding `try`/`catch`, so a raising
executor makes the whole `chatWithJsonTools` call reject — modelled by the
`Except.error` short-circuit. -/
def toolLoopGoE (respond : List (String × ToolResult) → GResponse)
    (exec : String → Args → Except String ToolResult) :
    Nat → GResponse → List (String × ToolResult) →
    List ToolResult → List ToolResult → List ToolCall → Except String LoopOut
  | 0, resp, _, charts, cards, calls => Except.ok ⟨resp, charts, cards, calls⟩
  | fuel + 1, resp, sent, charts, cards, calls =>
    match findFuncCall resp.parts with
    | none => Except.ok ⟨resp, charts, cards, calls⟩
    | some (name, args) =>
      match exec name args with
      | Except.error e => Except.error e
      | Except.ok r =>
        let sent' := sent ++ [(name, r)]
        toolLoopGoE respond exec fuel (respond sent') sent'
          (if r.isChart then charts ++ [r] else charts)
          (if r.isCard then cards ++ [r] else cards)
          (calls ++ [⟨name, args, r⟩])

/-- `chatWithJsonTools` under exception semantics for the executor. -/
def chatWithJsonToolsE (respond : List (String × ToolResult) → GResponse)
    (exec : String → Args → Except String ToolResult) : Except String LoopOut :=
  toolLoopGoE respond exec 5 (respond []) [] [] [] []

-- ── Generic lemmas about the loop ────────────────────────────────────────────

theorem toolLoopGo_length_le (respond : List (String × ToolResult) → GResponse)
    (exec : String → Args → ToolResult) :
    ∀ (fuel : Nat) (resp : GResponse) (sent : List (String × ToolResult))
      (charts cards : List ToolResult) (calls : List ToolCall),
      (toolLoopGo respond exec fuel resp sent charts cards calls).toolCalls.length ≤
        calls.length + fuel := by
  intro fuel
  induction fuel with
  | zero => intro resp sent charts cards calls; simp [toolLoopGo]
  | succ n ih =>
    intro resp sent charts cards calls
    unfold toolLoopGo
    cases h : findFuncCall resp.parts with
    | none => simp
    | some nm =>
      obtain ⟨name, args⟩ := nm
      dsimp only
      have := ih (respond (sent ++ [(name, exec name args)])) (sent ++ [(name, exec name args)])
        (if (exec name args).isChart then charts ++ [exec name args] else charts)
        (if (exec name args).isCard then cards ++ [exec name args] else cards)
        (calls ++ [⟨name, args, exec name args⟩])
      simp only [List.length_append, List.length_cons, List.length_nil] at this
      omega

theorem toolLoopGo_early_exit (respond : List (String × ToolResult) → GResponse)
    (exec : String → Args → ToolResult) :
    ∀ (fuel : Nat) (resp : GResponse) (sent : List (String × ToolResult))
      (charts cards : List ToolResult) (calls : List ToolCall),
      (toolLoopGo respond exec fuel resp sent charts cards calls).toolCalls.length <
        calls.length + fuel →
      findFuncCall (toolLoopGo respond exec fuel resp sent charts cards calls).response.parts
        = none := by
  intro fuel
  induction fuel with
  | zero =>
    intro resp sent charts cards calls h
    simp [toolLoopGo] at h
  | succ n ih =>
    intro resp sent charts cards calls h
    unfold toolLoopGo at h ⊢
    cases hf : findFuncCall resp.parts with
    | none => exact hf
    | some nm =>
      obtain ⟨name, args⟩ := nm
      rw [hf] at h
      dsimp only at h ⊢
      refine ih _ _ _ _ _ ?_
      simp only [List.length_append, List.length_cons, List.length_nil] at h ⊢
      omega

theorem toolLoopGo_adversarial (respond : List (String × ToolResult) → GResponse)
    (exec : String → Args → ToolResult)
    (hadv : ∀ s, (findFuncCall (respond s).parts).isSome = true) :
    ∀ (fuel : Nat) (sent : List (String × ToolResult))
      (charts cards : List ToolResult) (calls : List ToolCall),
      (toolLoopGo respond exec fuel (respond sent) sent charts cards calls).toolCalls.length =
        calls.length + fuel := by
  intro fuel
  induction fuel with
  | zero => intro sent charts cards calls; simp [toolLoopGo]
  | succ n ih =>
    intro sent charts cards calls
    obtain ⟨⟨name, args⟩, hf⟩ := Option.isSome_iff_exists.mp (hadv sent)
    unfold toolLoopGo
    rw [hf]
    dsimp only
    have := ih (sent ++ [(name, exec name args)])
      (if (exec name args).isChart then charts ++ [exec name args] else charts)
      (if (exec name args).isCard then cards ++ [exec name args] else cards)
      (calls ++ [⟨name, args, exec name args⟩])
    simp only [List.length_append, List.length_cons, List.length_nil] at this
    omega

/-- C1: for every history/user message (abstracted into the deterministic
`respond` function) and every executor, the tool-calling loop performs at most
5 tool invocations per user turn; when it performs fewer than 5 it stopped at
a response with no function-call part (immediate exit); and under an
adversarial model that proposes a call in every response it performs exactly
5, never more. -/
theorem chatWithJsonTools_round_cap (respond : List (String × ToolResult) → GResponse)
    (exec : String → Args → ToolResult) :
    (chatWithJsonTools respond exec).toolCalls.length ≤ 5 ∧
    ((chatWithJsonTools respond exec).toolCalls.length < 5 →
      findFuncCall (chatWithJsonTools respond exec).response.parts = none) ∧
    ((∀ s, (findFuncCall (respond s).parts).isSome = true) →
      (chatWithJsonTools respond exec).toolCalls.length = 5) := by
  refine ⟨?_, ?_, ?_⟩
  · have h := toolLoopGo_length_le respond exec 5 (respond []) [] [] [] []
    simpa [chatWithJsonTools] using h
  · intro h
    exact toolLoopGo_early_exit respond exec 5 (respond []) [] [] [] []
      (by simpa [chatWithJsonTools] using h)
  · intro hadv
    have h := toolLoopGo_adversarial respond exec hadv 5 [] [] [] []
    simpa [chatWithJsonTools] using h

/-- Adversarial model response: every response proposes another call. -/
def advRespond : List (String × ToolResult) → GResponse :=
  fun _ => ⟨[GPart.funcCall "f" noArgs], ""⟩

/-- Constant executor used to instantiate loop theorems. -/
def constExec : String → Args → ToolResult := fun _ _ => ToolResult.error "x"

/-- Witness for C1: under the always-proposing model the loop executes exactly
5 calls. -/
theorem chatWithJsonTools_round_cap_witness :
    (chatWithJsonTools advRespond constExec).toolCalls.length = 5 :=
  (chatWithJsonTools_round_cap advRespond constExec).2.2 (fun _ => rfl)

-- ── C2: exceptions from the executor ─────────────────────────────────────────

/-- Counterexample for C2: the source calls `executeFn(name, args)` with no
surrounding `try`/`catch`, so with a model that proposes a call and an
executor that raises, the whole `chatWithJsonTools` call rejects with the
executor's exception — nothing is caught, no error-tagged result is recorded
or sent back.  (The claim asserts the orchestrator would catch the failure.) -/
theorem executeFn_exception_escapes_cex :
    chatWithJsonToolsE advRespond (fun _ _ => Except.error "boom") = Except.error "boom" := rfl

theorem toolLoopGoE_ok_of_total (respond : List (String × ToolResult) → GResponse)
    (exec : String → Args → ToolResult) :
    ∀ (fuel : Nat) (resp : GResponse) (sent : List (String × ToolResult))
      (charts cards : List ToolResult) (calls : List ToolCall),
      toolLoopGoE respond (fun n a => Except.ok (exec n a)) fuel resp sent charts cards calls =
        Except.ok (toolLoopGo respond exec fuel resp sent charts cards calls) := by
  intro fuel
  induction fuel with
  | zero => intro resp sent charts cards calls; rfl
  | succ n ih =>
    intro resp sent charts cards calls
    unfold toolLoopGoE toolLoopGo
    cases hf : findFuncCall resp.parts with
    | none => rfl
    | some nm =>
      obtain ⟨name, args⟩ := nm
      dsimp only
      exact ih _ _ _ _ _

/-- C2 (amended): the orchestrator performs no catching around
`executeFn`.  If the first response proposes a call on which the executor
raises, the exception escapes `chatWithJsonTools` unchanged; conversely, for a
never-raising executor (such as `executeJsonTool`, which is a total function
returning error-tagged results on its failure paths) the loop always returns
normally. -/
theorem executeFn_exception_propagation (respond : List (String × ToolResult) → GResponse) :
    (∀ (exec : String → Args → Except String ToolResult) (name : String) (args : Args)
      (e : String), findFuncCall (respond []).parts = some (name, args) →
      exec name args = Except.error e → chatWithJsonToolsE respond exec = Except.error e) ∧
    (∀ (exec : String → Args → ToolResult),
      chatWithJsonToolsE respond (fun n a => Except.ok (exec n a)) =
        Except.ok (chatWithJsonTools respond exec)) := by
  constructor
  · intro exec name args e hcall hraise
    unfold chatWithJsonToolsE toolLoopGoE
    rw [hcall]
    dsimp only
    rw [hraise]
  · intro exec
    exact toolLoopGoE_ok_of_total respond exec 5 (respond []) [] [] [] []

/-- Witness for C2 (amended): a concrete raising executor under the concrete
always-proposing model makes the loop reject with that exception. -/
theorem executeFn_exception_propagation_witness :
    chatWithJsonToolsE advRespond (fun _ _ => Except.error "fail2") = Except.error "fail2" :=
  (executeFn_exception_propagation advRespond).1 (fun _ _ => Except.error "fail2")
    "f" noArgs "fail2" rfl rfl

-- ── C9: executors never mutate the dataset ───────────────────────────────────

/-- C9: for every tool name, arguments and dataset, executing a tool leaves
the input dataset unchanged — the record list threaded through the
state-passing executor comes back equal, element for element and in order
(every sort in the executor operates on a fresh copy of the list). -/
theorem executeJsonTool_preserves_dataset (env : Env) (toolName : String) (args : Args)
    (videos : List JRecord) :
    (executeJsonToolSt env toolName args videos).2 = videos := by
  unfold executeJsonToolSt
  split_ifs <;> rfl

-- ── C8: conversation adapter ─────────────────────────────────────────────────

/-- C8: with a non-empty persona/system instruction the adapter output is
exactly the synthetic instruction turn, then the synthetic acknowledgment
turn, then the mapped input history unmodified and in order; with the empty
instruction it is the mapped history alone. -/
theorem buildChatHistory_adapter_spec (s : String) (history : List Msg) :
    (s ≠ "" → buildChatHistory s history =
      ⟨"user", sysTurnText s⟩ :: ⟨"model", ackText⟩ :: history.map mapHistoryTurn) ∧
    buildChatHistory "" history = history.map mapHistoryTurn := by
  constructor
  · intro hs
    simp [buildChatHistory, hs]
  · simp [buildChatHistory]

/-- Witness for C8 at a concrete instruction and two-message history. -/
theorem buildChatHistory_adapter_spec_witness :
    buildChatHistory "persona" [⟨"user", some "hi"⟩, ⟨"assistant", none⟩] =
      [⟨"user", sysTurnText "persona"⟩, ⟨"model", ackText⟩, ⟨"user", "hi"⟩, ⟨"model", ""⟩] := by
  rw [(buildChatHistory_adapter_spec "persona" [⟨"user", some "hi"⟩, ⟨"assistant", none⟩]).1
    (by decide)]
  rfl

-- ── C4: statistics executor on zero coercible values ─────────────────────────

/-- C4: when no value of the requested field coerces to a number, the
statistics executor returns (never throws — it is a total function) the
error-tagged result whose message names the available fields, i.e. the keys
of the first record joined by `', '`. -/
theorem compute_stats_zero_numeric_error (env : Env) (args : Args) (videos : List JRecord)
    (h : numericValues videos args.field = []) :
    executeJsonTool env "compute_stats_json" args videos =
      ToolResult.error ("No numeric values found for field \"" ++ args.field ++
        "\". Available fields: " ++
        String.intercalate ", " ((videos.headD []).map Prod.fst)) := by
  unfold executeJsonTool executeJsonToolSt computeStats
  simp [h]

/-- Witness for C4: a dataset whose single record has only a `title` field,
queried for `view_count`. -/
theorem compute_stats_zero_numeric_error_witness :
    executeJsonTool env₀ "compute_stats_json" ⟨"view_count", "", none, none, Value.undef⟩
      [[("title", Value.str "a")]] =
      ToolResult.error
        "No numeric values found for field \"view_count\". Available fields: title" := by
  rw [compute_stats_zero_numeric_error env₀ ⟨"view_count", "", none, none, Value.undef⟩
    [[("title", Value.str "a")]] (by decide)]
  rfl

-- ── C10: the spelled-out ordinal branch needs an exact-word query ────────────

/-- The ten spelled-out ordinal words, i.e. the keys of the source's
`ordinals` object. -/
def tenOrdinalWords : List String :=
  ["first", "second", "third", "fourth", "fifth",
   "sixth", "seventh", "eighth", "ninth", "tenth"]

theorem spelledOrdinalIndex_isSome_iff (q : String) :
    (spelledOrdinalIndex q).isSome = true ↔ q ∈ tenOrdinalWords := by
  simp only [spelledOrdinalIndex, ordinalPairs, tenOrdinalWords, List.lookup,
    List.mem_cons, List.not_mem_nil, or_false]
  repeat' split
  all_goals simp_all

/-- C10: the spelled-out-ordinal branch of `play_video` applies exactly when
the whole lowercased, trimmed query is one of the ten words `"first"` …
`"tenth"`; for any other query (in particular one merely containing such a
word among others) the resolver behaves identically to the resolver without
the spelled-out-ordinal branch, i.e. resolution falls to the numeral-suffix,
criteria, and title-matching strategies. -/
theorem spelled_ordinal_exact_match_only (env : Env) (query₀ : Option String)
    (videos : List JRecord) :
    ((spelledOrdinalIndex (jsTrim (jsToLower (query₀.getD "")))).isSome = true ↔
      jsTrim (jsToLower (query₀.getD "")) ∈ tenOrdinalWords) ∧
    (jsTrim (jsToLower (query₀.getD "")) ∉ tenOrdinalWords →
      playVideo env query₀ videos = playVideoSkipSpelled env query₀ videos) := by
  refine ⟨spelledOrdinalIndex_isSome_iff _, ?_⟩
  intro hnot
  have hnone : spelledOrdinalIndex (jsTrim (jsToLower (query₀.getD ""))) = none :=
    Option.not_isSome_iff_eq_none.mp
      (fun hs => hnot ((spelledOrdinalIndex_isSome_iff _).mp hs))
  simp only [playVideo, playVideoSkipSpelled, playVideoWith, ordinalStage, hnone]

/-- Witness for C10: the query `"play the first video"` (which contains the
word `"first"`) resolves exactly as the resolver without the spelled-out
ordinal branch. -/
theorem spelled_ordinal_exact_match_only_witness :
    playVideo env₀ (some "play the first video") [[("title", Value.str "alpha")]] =
      playVideoSkipSpelled env₀ (some "play the first video")
        [[("title", Value.str "alpha")]] :=
  (spelled_ordinal_exact_match_only env₀ (some "play the first video")
    [[("title", Value.str "alpha")]]).2 (by decide)

-- ── Lemmas about the stable sort ─────────────────────────────────────────────

theorem insertLe_perm (le : α → α → Bool) (x : α) :
    ∀ l : List α, (insertLe le x l).Perm (x :: l)
  | [] => List.Perm.refl _
  | y :: ys => by
    unfold insertLe
    split
    · exact List.Perm.refl _
    · exact ((insertLe_perm le x ys).cons y).trans (List.Perm.swap x y ys)

theorem sortByLe_perm (le : α → α → Bool) : ∀ l : List α, (sortByLe le l).Perm l
  | [] => List.Perm.refl _
  | x :: xs => (insertLe_perm le x (sortByLe le xs)).trans ((sortByLe_perm le xs).cons x)

theorem sortByLe_eq_nil_iff (le : α → α → Bool) (l : List α) :
    sortByLe le l = [] ↔ l = [] := by
  constructor
  · intro h
    have hl := (sortByLe_perm le l).length_eq
    rw [h] at hl
    exact List.length_eq_zero.mp hl.symm
  · rintro rfl; rfl

theorem pairwise_insertLe (le : α → α → Bool)
    (htot : ∀ a b, le a b = true ∨ le b a = true)
    (htrans : ∀ a b c, le a b = true → le b c = true → le a c = true) (x : α)
    (l : List α) (hp : List.Pairwise (fun a b => le a b = true) l) :
    List.Pairwise (fun a b => le a b = true) (insertLe le x l) := by
  induction l with
  | nil => simp [insertLe]
  | cons y ys ih =>
    rcases List.pairwise_cons.mp hp with ⟨hy, hys⟩
    unfold insertLe
    split
    case isTrue hxy =>
      refine List.pairwise_cons.mpr ⟨?_, hp⟩
      intro z hz
      rcases List.mem_cons.mp hz with rfl | hz
      · exact hxy
      · exact htrans x y z hxy (hy z hz)
    case isFalse hxy =>
      have hyx : le y x = true := (htot x y).resolve_left hxy
      refine List.pairwise_cons.mpr ⟨?_, ih hys⟩
      intro z hz
      rcases List.mem_cons.mp ((insertLe_perm le x ys).mem_iff.mp hz) with rfl | hz2
      · exact hyx
      · exact hy z hz2

theorem sortByLe_pairwise (le : α → α → Bool)
    (htot : ∀ a b, le a b = true ∨ le b a = true)
    (htrans : ∀ a b c, le a b = true → le b c = true → le a c = true) :
    ∀ l : List α, List.Pairwise (fun a b => le a b = true) (sortByLe le l)
  | [] => List.Pairwise.nil
  | x :: xs => pairwise_insertLe le htot htrans x _ (sortByLe_pairwise le htot htrans xs)

/-- Head of the descending stable sort by key `f`: it is the first element of
the original list attaining the maximal key — everything before it in the
original order has a strictly smaller key, everything in the list has a key
at most its own. -/
theorem sortDesc_head (f : α → ℚ) (x : α) (xs : List α) :
    ∃ m t pre post,
      sortByLe (fun a b => decide (f b ≤ f a)) (x :: xs) = m :: t ∧
      x :: xs = pre ++ m :: post ∧
      (∀ u ∈ pre, f u < f m) ∧ (∀ u ∈ x :: xs, f u ≤ f m) := by
  induction xs generalizing x with
  | nil =>
    refine ⟨x, [], [], [], rfl, rfl, by simp, ?_⟩
    intro u hu
    rcases List.mem_singleton.mp hu with rfl
    exact le_refl _
  | cons y ys ih =>
    obtain ⟨m, t, pre, post, hsort, hdecomp, hpre, hall⟩ := ih y
    by_cases hxm : f m ≤ f x
    · refine ⟨x, m :: t, [], y :: ys, ?_, rfl, by simp, ?_⟩
      · show insertLe (fun a b => decide (f b ≤ f a)) x
          (sortByLe (fun a b => decide (f b ≤ f a)) (y :: ys)) = x :: m :: t
        rw [hsort]
        unfold insertLe
        rw [if_pos (by simpa using hxm)]
      · intro u hu
        rcases List.mem_cons.mp hu with rfl | hu
        · exact le_refl _
        · exact le_trans (hall u hu) hxm
    · push_neg at hxm
      refine ⟨m, insertLe (fun a b => decide (f b ≤ f a)) x t, x :: pre, post, ?_,
        by simp [hdecomp], ?_, ?_⟩
      · show insertLe (fun a b => decide (f b ≤ f a)) x
          (sortByLe (fun a b => decide (f b ≤ f a)) (y :: ys)) = m :: _
        rw [hsort]
        show (if decide (f m ≤ f x) = true then x :: m :: t
          else m :: insertLe (fun a b => decide (f b ≤ f a)) x t) =
            m :: insertLe (fun a b => decide (f b ≤ f a)) x t
        rw [if_neg (by simpa using not_le.mpr hxm)]
      · intro u hu
        rcases List.mem_cons.mp hu with rfl | hu
        · exact hxm
        · exact hpre u hu
      · intro u hu
        rcases List.mem_cons.mp hu with rfl | hu
        · exact le_of_lt hxm
        · exact hall u hu

-- ── C7: the record resolver on "first" and "most viewed" ─────────────────────

/-- C7: on a non-empty record list the query `"first"` resolves to the card of
the first record in the given order, and `"most viewed"` resolves to the card
of a record `m` of the list whose `view_count` key is maximal, with every
record preceding `m` in the original order carrying a strictly smaller key —
i.e. ties go to the earliest such record, as the descending sort is stable. -/
theorem resolve_first_and_most_viewed (env : Env) (v : JRecord) (rest : List JRecord) :
    playVideo env (some "first") (v :: rest) = cardOf v ∧
    ∃ pre m post, v :: rest = pre ++ m :: post ∧
      playVideo env (some "most viewed") (v :: rest) = cardOf m ∧
      (∀ u ∈ pre, viewKey u < viewKey m) ∧ (∀ u ∈ v :: rest, viewKey u ≤ viewKey m) := by
  constructor
  · rfl
  · obtain ⟨m, t, pre, post, hsort, hdecomp, hpre, hall⟩ := sortDesc_head viewKey v rest
    refine ⟨pre, m, post, hdecomp, ?_, hpre, hall⟩
    have hred : playVideo env (some "most viewed") (v :: rest) =
        (match (match (sortByLe (fun a b => decide (viewKey b ≤ viewKey a))
              (v :: rest)).head? with
          | some f => some f
          | none => titleStage "most viewed" (v :: rest)) with
          | some f => cardOf f
          | none => ToolResult.error "No video found matching \"most viewed\".") := rfl
    rw [hred, hsort]
    rfl

-- ── C6: chart builder ────────────────────────────────────────────────────────

theorem plotMetricVsTime_cases (env : Env) (args : Args) (videos : List JRecord) :
    plotMetricVsTime env args videos =
      match sortByLe (fun a b => decide (env.dateMs (getField a "release_date") ≤
          env.dateMs (getField b "release_date"))) (videos.filter (chartPred args.metric)) with
      | [] => ToolResult.error ("No data found for metric \"" ++ args.metric ++
          "\" with release dates.")
      | p :: ps => ToolResult.chart args.metric (chartTitle args)
          ((p :: ps).map (mkPoint env args.metric)) := by
  unfold plotMetricVsTime
  cases hsort : sortByLe (fun a b => decide (env.dateMs (getField a "release_date") ≤
      env.dateMs (getField b "release_date"))) (videos.filter (chartPred args.metric)) with
  | nil => simp [hsort]
  | cons p ps => simp [hsort]

/-- C6: the chart builder returns an error result exactly when no record has
both a truthy timestamp and a present (non-undefined, non-null) metric field;
otherwise it returns a chart whose data is non-empty, contains one point per
qualifying record (each point built by `mkPoint`, whose value is the metric
coerced to a number with default `0`), and is sorted non-decreasing by the
timestamp key. -/
theorem plot_metric_vs_time_spec (env : Env) (args : Args) (videos : List JRecord) :
    ((executeJsonTool env "plot_metric_vs_time" args videos).isError = true ↔
      videos.filter (chartPred args.metric) = []) ∧
    (videos.filter (chartPred args.metric) ≠ [] →
      ∃ data, executeJsonTool env "plot_metric_vs_time" args videos =
          ToolResult.chart args.metric (chartTitle args) data ∧
        data ≠ [] ∧
        data.Perm ((videos.filter (chartPred args.metric)).map (mkPoint env args.metric)) ∧
        data.Pairwise (fun p q => env.dateMs p.fullDate ≤ env.dateMs q.fullDate)) := by
  have hexec : executeJsonTool env "plot_metric_vs_time" args videos =
      plotMetricVsTime env args videos := rfl
  rw [hexec, plotMetricVsTime_cases]
  cases hS : sortByLe (fun a b => decide (env.dateMs (getField a "release_date") ≤
      env.dateMs (getField b "release_date"))) (videos.filter (chartPred args.metric)) with
  | nil =>
    have hf : videos.filter (chartPred args.metric) = [] := (sortByLe_eq_nil_iff _ _).mp hS
    exact ⟨by simp [ToolResult.isError, hf], fun hne => absurd hf hne⟩
  | cons p ps =>
    have hne : videos.filter (chartPred args.metric) ≠ [] := by
      intro hf
      rw [hf] at hS
      exact List.cons_ne_nil p ps hS.symm
    constructor
    · simp [ToolResult.isError, hne]
    · intro _
      refine ⟨(p :: ps).map (mkPoint env args.metric), rfl, by simp, ?_, ?_⟩
      · have hperm : (p :: ps).Perm (videos.filter (chartPred args.metric)) := by
          rw [← hS]
          exact sortByLe_perm _ _
        exact hperm.map (mkPoint env args.metric)
      · have hpw := sortByLe_pairwise
          (fun a b => decide (env.dateMs (getField a "release_date") ≤
            env.dateMs (getField b "release_date")))
          (fun a b => by
            rcases le_total (env.dateMs (getField a "release_date"))
              (env.dateMs (getField b "release_date")) with h | h
            · exact Or.inl (by simpa using h)
            · exact Or.inr (by simpa using h))
          (fun a b c hab hbc => by
            simp only [decide_eq_true_eq] at hab hbc ⊢
            exact le_trans hab hbc)
          (videos.filter (chartPred args.metric))
        rw [hS] at hpw
        refine List.Pairwise.map _ ?_ hpw
        intro a b hab
        simpa [mkPoint] using hab

/-- Witness for C6 at a concrete dataset: two records qualify (out of order by
date), one lacks the timestamp. -/
theorem plot_metric_vs_time_spec_witness :
    ([[("release_date", Value.num 5), ("view_count", Value.num 50)],
      [("release_date", Value.num 2), ("view_count", Value.num 20)],
      [("view_count", Value.num 99)]] : List JRecord).filter (chartPred "view_count") ≠ [] ∧
    ∃ data, executeJsonTool env₀ "plot_metric_vs_time" ⟨"", "view_count", none, none, Value.undef⟩
        [[("release_date", Value.num 5), ("view_count", Value.num 50)],
         [("release_date", Value.num 2), ("view_count", Value.num 20)],
         [("view_count", Value.num 99)]] =
        ToolResult.chart "view_count" (chartTitle ⟨"", "view_count", none, none, Value.undef⟩) data ∧
      data ≠ [] ∧
      data.Perm ((([[("release_date", Value.num 5), ("view_count", Value.num 50)],
          [("release_date", Value.num 2), ("view_count", Value.num 20)],
          [("view_count", Value.num 99)]] : List JRecord).filter
            (chartPred "view_count")).map (mkPoint env₀ "view_count")) ∧
      data.Pairwise (fun p q => env₀.dateMs p.fullDate ≤ env₀.dateMs q.fullDate) :=
  ⟨by decide,
    (plot_metric_vs_time_spec env₀ ⟨"", "view_count", none, none, Value.undef⟩
      [[("release_date", Value.num 5), ("view_count", Value.num 50)],
       [("release_date", Value.num 2), ("view_count", Value.num 20)],
       [("view_count", Value.num 99)]]).2 (by decide)⟩

-- ── C5: statistics bounds ────────────────────────────────────────────────────

theorem foldl_max_spec (xs : List ℚ) :
    ∀ b : ℚ, b ≤ xs.foldl max b ∧ ∀ x ∈ xs, x ≤ xs.foldl max b := by
  induction xs with
  | nil => intro b; exact ⟨le_refl b, by simp⟩
  | cons y ys ih =>
    intro b
    constructor
    · exact le_trans (le_max_left b y) (ih (max b y)).1
    · intro x hx
      rcases List.mem_cons.mp hx with rfl | hx
      · exact le_trans (le_max_right b x) (ih (max b x)).1
      · exact (ih (max b y)).2 x hx

theorem foldl_min_spec (xs : List ℚ) :
    ∀ b : ℚ, xs.foldl min b ≤ b ∧ ∀ x ∈ xs, xs.foldl min b ≤ x := by
  induction xs with
  | nil => intro b; exact ⟨le_refl b, by simp⟩
  | cons y ys ih =>
    intro b
    constructor
    · exact le_trans (ih (min b y)).1 (min_le_left b y)
    · intro x hx
      rcases List.mem_cons.mp hx with rfl | hx
      · exact le_trans (ih (min b x)).1 (min_le_right b x)
      · exact (ih (min b y)).2 x hx

theorem le_listMax (l : List ℚ) : ∀ x ∈ l, x ≤ listMax l := by
  cases l with
  | nil => simp
  | cons y ys =>
    intro x hx
    rcases List.mem_cons.mp hx with rfl | hx
    · exact (foldl_max_spec ys x).1
    · exact (foldl_max_spec ys y).2 x hx

theorem listMin_le (l : List ℚ) : ∀ x ∈ l, listMin l ≤ x := by
  cases l with
  | nil => simp
  | cons y ys =>
    intro x hx
    rcases List.mem_cons.mp hx with rfl | hx
    · exact (foldl_min_spec ys x).1
    · exact (foldl_min_spec ys y).2 x hx

theorem sum_le_length_mul (l : List ℚ) (M : ℚ) (h : ∀ x ∈ l, x ≤ M) :
    l.sum ≤ (l.length : ℚ) * M := by
  induction l with
  | nil => simp
  | cons y ys ih =>
    have hy := h y (List.mem_cons_self y ys)
    have hys := ih (fun x hx => h x (List.mem_cons_of_mem y hx))
    simp only [List.sum_cons, List.length_cons]
    push_cast
    nlinarith

theorem length_mul_le_sum (l : List ℚ) (m : ℚ) (h : ∀ x ∈ l, m ≤ x) :
    (l.length : ℚ) * m ≤ l.sum := by
  induction l with
  | nil => simp
  | cons y ys ih =>
    have hy := h y (List.mem_cons_self y ys)
    have hys := ih (fun x hx => h x (List.mem_cons_of_mem y hx))
    simp only [List.sum_cons, List.length_cons]
    push_cast
    nlinarith

theorem fmt_nonneg (q : ℚ) (h : 0 ≤ q) : 0 ≤ fmt q := by
  unfold fmt
  have hr : (0 : ℤ) ≤ round (q * 10000) := by
    rw [round_eq]
    refine Int.floor_nonneg.mpr ?_
    nlinarith
  have : (0 : ℚ) ≤ ((round (q * 10000) : ℤ) : ℚ) := by exact_mod_cast hr
  positivity

/-- Counterexample for C5: on the one-record dataset with field `x = 1.00006`
the returned `mean` (rounded to 4 decimal places, `1.0001`) is strictly
greater than the returned `max` (the raw value `1.00006`), so the returned
mean does not lie between the returned min and max. -/
theorem stats_rounded_mean_exceeds_max_cex :
    (executeJsonTool env₀ "compute_stats_json" ⟨"x", "", none, none, Value.undef⟩
        [[("x", Value.num (100006/100000))]]).maxOf <
      (executeJsonTool env₀ "compute_stats_json" ⟨"x", "", none, none, Value.undef⟩
        [[("x", Value.num (100006/100000))]]).meanOf := by
  unfold executeJsonTool executeJsonToolSt computeStats
  norm_num [numericValues, jsParseFloat, getField, List.lookup, listMin, listMax, fmt,
    round_eq, ToolResult.maxOf, ToolResult.meanOf, List.filterMap_cons, List.filterMap_nil,
    id_eq, List.sum_cons, List.sum_nil, List.length_cons, List.length_nil, List.foldl]

/-- C5 (amended): with at least one coercible value, the statistics executor
returns `min`/`max` equal to the minimum/maximum of the coerced values, the
unrounded arithmetic mean lies between them inclusive, the returned `mean` is
that mean rounded to 4 decimal places, and the returned `std` is non-negative
(assuming only that `Math.sqrt` maps non-negatives to non-negatives).  The
returned rounded mean itself can leave `[min, max]` by up to half an ulp of
the 4-decimal grid, as the counterexample shows. -/
theorem stats_mean_bounds_unrounded (env : Env) (args : Args) (videos : List JRecord)
    (hne : numericValues videos args.field ≠ [])
    (hsqrt : ∀ q : ℚ, 0 ≤ q → 0 ≤ env.sqrt q) :
    (executeJsonTool env "compute_stats_json" args videos).minOf ≤
        (numericValues videos args.field).sum / ((numericValues videos args.field).length : ℚ) ∧
      (numericValues videos args.field).sum / ((numericValues videos args.field).length : ℚ) ≤
        (executeJsonTool env "compute_stats_json" args videos).maxOf ∧
      (executeJsonTool env "compute_stats_json" args videos).meanOf =
        fmt ((numericValues videos args.field).sum / ((numericValues videos args.field).length : ℚ)) ∧
      0 ≤ (executeJsonTool env "compute_stats_json" args videos).stdOf ∧
      (executeJsonTool env "compute_stats_json" args videos).minOf =
        listMin (numericValues videos args.field) ∧
      (executeJsonTool env "compute_stats_json" args videos).maxOf =
        listMax (numericValues videos args.field) := by
  have hexec : executeJsonTool env "compute_stats_json" args videos =
      computeStats env args.field videos := rfl
  have hres : computeStats env args.field videos =
      ToolResult.stats args.field (numericValues videos args.field).length
        (fmt ((numericValues videos args.field).sum /
          ((numericValues videos args.field).length : ℚ)))
        (fmt (medianQ (sortByLe (fun a b => decide (a ≤ b)) (numericValues videos args.field))))
        (fmt (env.sqrt (((numericValues videos args.field).map
          (fun b => (b - (numericValues videos args.field).sum /
            ((numericValues videos args.field).length : ℚ)) ^ 2)).sum /
          ((numericValues videos args.field).length : ℚ))))
        (listMin (numericValues videos args.field))
        (listMax (numericValues videos args.field)) := by
    unfold computeStats
    rw [if_neg (by simpa using hne)]
  rw [hexec, hres]
  simp only [ToolResult.minOf, ToolResult.maxOf, ToolResult.meanOf, ToolResult.stdOf]
  have hlen : 0 < ((numericValues videos args.field).length : ℚ) := by
    have h0 : (numericValues videos args.field).length ≠ 0 :=
      fun h => hne (List.length_eq_zero.mp h)
    exact_mod_cast Nat.pos_of_ne_zero h0
  refine ⟨?_, ?_, trivial, ?_, trivial, trivial⟩
  · rw [le_div_iff₀ hlen, mul_comm]
    exact length_mul_le_sum _ _ (listMin_le _)
  · rw [div_le_iff₀ hlen, mul_comm]
    exact sum_le_length_mul _ _ (le_listMax _)
  · refine fmt_nonneg _ (hsqrt _ ?_)
    refine div_nonneg (List.sum_nonneg ?_) (le_of_lt hlen)
    intro x hx
    obtain ⟨b, _, rfl⟩ := List.mem_map.mp hx
    positivity

/-- Concrete dataset for the C5 witness. -/
def statW : List JRecord := [[("v", Value.num 100)], [("v", Value.num 300)], [("v", Value.num 200)]]

/-- Witness for C5 (amended) on a three-record dataset. -/
theorem stats_mean_bounds_unrounded_witness :
    numericValues statW "v" ≠ [] ∧
    ((executeJsonTool env₀ "compute_stats_json" ⟨"v", "", none, none, Value.undef⟩ statW).minOf ≤
        (numericValues statW "v").sum / ((numericValues statW "v").length : ℚ) ∧
      (numericValues statW "v").sum / ((numericValues statW "v").length : ℚ) ≤
        (executeJsonTool env₀ "compute_stats_json" ⟨"v", "", none, none, Value.undef⟩ statW).maxOf ∧
      (executeJsonTool env₀ "compute_stats_json" ⟨"v", "", none, none, Value.undef⟩ statW).meanOf =
        fmt ((numericValues statW "v").sum / ((numericValues statW "v").length : ℚ)) ∧
      0 ≤ (executeJsonTool env₀ "compute_stats_json" ⟨"v", "", none, none, Value.undef⟩ statW).stdOf ∧
      (executeJsonTool env₀ "compute_stats_json" ⟨"v", "", none, none, Value.undef⟩ statW).minOf =
        listMin (numericValues statW "v") ∧
      (executeJsonTool env₀ "compute_stats_json" ⟨"v", "", none, none, Value.undef⟩ statW).maxOf =
        listMax (numericValues statW "v")) :=
  ⟨by decide,
    stats_mean_bounds_unrounded env₀ ⟨"v", "", none, none, Value.undef⟩ statW (by decide)
      (fun _ hq => hq)⟩

-- ── C3: out-of-range numeral ordinal ─────────────────────────────────────────

/-- Argument record carrying only a query. -/
def queryArgs (q : String) : Args := ⟨"", "", none, some q, Value.undef⟩

/-- Counterexample for C3: on a 3-record dataset whose first title contains
the word `"the"`, the query `"play the 5th"` does NOT return an error result.
The numeral-suffix ordinal (index 4) is out of range and yields no record,
the criteria stage does not match, the exact-terms title match fails — but
the fuzzy fallback then matches the term `"the"` (length 3 > 2) inside the
first title, and the executor returns that record's card instead of an
error. -/
theorem play_fifth_title_fallback_cex :
    executeJsonTool env₀ "play_video" (queryArgs "play the 5th")
      [[("title", Value.str "the a")], [("title", Value.str "b")], [("title", Value.str "c")]] =
      ToolResult.card (Value.str "the a") Value.undef
        (Value.str "https://i.ytimg.com/vi/undefined/hqdefault.jpg")
        Value.undef Value.undef Value.undef := by decide

/-- C3 (amended): an out-of-range numeral-suffix ordinal (here `"play the
5th"` against at most 4 records) yields an error result naming the original
query — provided the later resolution strategies also fail, i.e. no record's
title contains any of the query terms `"play"`, `"the"`, `"5th"` (each longer
than 2 characters, so each could trigger the fuzzy fallback).  The executor is
a total function, so it never crashes. -/
theorem play_ordinal_out_of_range_error (env : Env) (videos : List JRecord)
    (hne : videos ≠ []) (hlen : videos.length ≤ 4)
    (htitle : ∀ v ∈ videos, strContains (titleLower v) "play" = false ∧
      strContains (titleLower v) "the" = false ∧ strContains (titleLower v) "5th" = false) :
    executeJsonTool env "play_video" (queryArgs "play the 5th") videos =
      ToolResult.error "No video found matching \"play the 5th\"." := by
  obtain ⟨v, rest, rfl⟩ : ∃ v rest, videos = v :: rest := by
    cases videos with
    | nil => exact absurd rfl hne
    | cons a l => exact ⟨a, l, rfl⟩
  have h4 : (v :: rest).get? 4 = none := by
    rw [List.get?_eq_none]
    simpa using hlen
  have hterms : jsSplitWs (jsTrim (jsToLower "play the 5th")) = ["play", "the", "5th"] := rfl
  have hfind1 : (v :: rest).find? (fun u => (jsSplitWs (jsTrim (jsToLower "play the 5th"))).all
      (fun t => strContains (titleLower u) t)) = none := by
    rw [List.find?_eq_none]
    intro u hu
    have ht := htitle u hu
    simp [hterms, ht.1]
  have hfind2 : (v :: rest).find? (fun u => (jsSplitWs (jsTrim (jsToLower "play the 5th"))).any
      (fun t => decide (t.length > 2) && strContains (titleLower u) t)) = none := by
    rw [List.find?_eq_none]
    intro u hu
    have ht := htitle u hu
    simp [hterms, ht.1, ht.2.1, ht.2.2]
  have hts : titleStage (jsTrim (jsToLower "play the 5th")) (v :: rest) = none := by
    unfold titleStage
    dsimp only
    rw [hfind1, hfind2]
  have hred : executeJsonTool env "play_video" (queryArgs "play the 5th") (v :: rest) =
      (match (match (match (v :: rest).get? 4 with
          | some f => some f
          | none => none) with
        | some f => some f
        | none => titleStage (jsTrim (jsToLower "play the 5th")) (v :: rest)) with
      | some f => cardOf f
      | none => ToolResult.error "No video found matching \"play the 5th\".") := rfl
  rw [hred, h4, hts]

/-- Witness for C3 (amended): three records with titles sharing no term with
the query. -/
theorem play_ordinal_out_of_range_error_witness :
    executeJsonTool env₀ "play_video" (queryArgs "play the 5th")
      [[("title", Value.str "aaa")], [("title", Value.str "bbb")], [("title", Value.str "ccc")]] =
      ToolResult.error "No video found matching \"play the 5th\"." :=
  play_ordinal_out_of_range_error env₀
    [[("title", Value.str "aaa")], [("title", Value.str "bbb")], [("title", Value.str "ccc")]]
    (by decide) (by decide) (by decide)
